import Mathlib

/-!
Verification of the span-matching core of hitrace-bench (`src/span.rs`).

The trace record type itself lives in `trace.rs`, outside the sources at
hand, so it is modelled from the spec's data-model section; the algorithm
(`queue_modify`, `find_end`, `find_all_spans`) is embedded directly from
`span.rs`.  Rust's panicking `unwrap` calls are modelled by `Option`:
an outer `none` means the corresponding call panics.
-/

namespace HitraceBench

/-- Modelled from the spec: the event kind tag of a trace record, one of
`StartSync`, `EndSync`, `StartAsync`, `EndAsync`, `Dot` (the enum is declared
in `trace.rs`, which is not among the sources; the variants are exactly those
matched in `span.rs`). -/
inductive TraceMarker where
  | StartSync
  | EndSync
  | StartAsync
  | EndAsync
  | Dot
  deriving DecidableEq, Repr

/-- Modelled from the spec: a fixed-point timestamp, a pair
(seconds, microseconds). -/
structure TimeStamp where
  seconds : Nat
  micro : Nat
  deriving DecidableEq, Repr

/-- Modelled from the spec: one trace record.  `pid`, `cpu`, `trace_marker`
and `function` are the fields the matching algorithm reads; `name`, `number`
and `shorthand` are opaque passthrough data (field list as constructed in the
tests of `span.rs`). -/
structure Trace where
  name : String
  pid : Nat
  cpu : Nat
  timestamp : TimeStamp
  trace_marker : TraceMarker
  number : String
  shorthand : String
  function : String
  deriving DecidableEq, Repr

/-- A span: the start trace record and the end trace record
(`Span` in `span.rs`; the Rust references are modelled as copies of the
records they point at). -/
structure Span where
  start : Trace
  end_ : Trace
  deriving DecidableEq, Repr

/-- `queue_modify` from `span.rs`: the Rust function mutates the counter in
place; here it returns the new counter value. -/
def queue_modify (trace : Trace) (start : Trace) (queue_size : Int) : Int :=
  if trace.pid = start.pid ∧ trace.cpu = start.cpu then
    match trace.trace_marker with
    | .StartSync => queue_size + 1
    | .EndSync => queue_size - 1
    | .StartAsync | .EndAsync | .Dot => queue_size
  else
    queue_size

/-- The scanning loop of `find_end` in `span.rs`: starting from counter
`queue_size` at trace index `pos`, return the index of the first record at
which the updated counter is zero, or `none` if the list is exhausted. -/
def find_end_go (start : Trace) : Int → Nat → List Trace → Option Nat
  | _, _, [] => none
  | queue_size, pos, t :: ts =>
    let q := queue_modify t start queue_size
    if q = 0 then some pos else find_end_go start q (pos + 1) ts

/-- `find_end` from `span.rs`.  The outer `Option` models the
`traces.get(start_pos).unwrap()` panic: `none` means the start index is out
of range and the Rust code panics; `some r` is the Rust return value `r`. -/
def find_end (start_pos : Nat) (traces : List Trace) : Option (Option Nat) :=
  match traces[start_pos]? with
  | none => none
  | some start =>
      some (find_end_go start 1 (start_pos + 1) (traces.drop (start_pos + 1)))

/-- One iteration of the loop body of `find_all_spans` in `span.rs`:
`find_end(start_position, traces).unwrap()` followed by
`traces.get(end_position).unwrap()`; `none` models either panic. -/
def span_of_start (traces : List Trace) (start_position : Nat)
    (start_trace : Trace) : Option Span :=
  match find_end start_position traces with
  | none => none
  | some none => none
  | some (some end_position) =>
      match traces[end_position]? with
      | none => none
      | some e => some { start := start_trace, end_ := e }

/-- The enumerate-filter-loop of `find_all_spans` in `span.rs`, written as a
recursion over the remaining suffix of `traces`; `index` is the position of
the head of the suffix in `traces`.  A `none` from the loop body aborts the
whole computation, as a Rust panic would. -/
def find_all_spans_go (fn_name : String) (traces : List Trace) :
    Nat → List Trace → Option (List Span)
  | _, [] => some []
  | index, t :: ts =>
    if t.function = fn_name then
      match span_of_start traces index t with
      | none => none
      | some s =>
          (find_all_spans_go fn_name traces (index + 1) ts).map
            (fun rest => s :: rest)
    else
      find_all_spans_go fn_name traces (index + 1) ts

/-- `find_all_spans` from `span.rs`: `none` models the panic on an
unterminated span, `some spans` is the returned vector. -/
def find_all_spans (fn_name : String) (traces : List Trace) :
    Option (List Span) :=
  find_all_spans_go fn_name traces 0 traces

/-- The running nesting counter described by the spec: fold the visited
records into the counter, starting from `q`. -/
def runCounter (start : Trace) (q : Int) (l : List Trace) : Int :=
  l.foldl (fun acc t => queue_modify t start acc) q

/-- The nesting counter of a `find_end` scan that starts at `start_pos`,
after the first `j` scanned records (the records at positions
`start_pos + 1 .. start_pos + j`), as the spec describes it: initialized
to 1 and updated by `queue_modify` per visited record. -/
def scanCounter (start : Trace) (traces : List Trace) (start_pos j : Nat) :
    Int :=
  runCounter start 1 ((traces.drop (start_pos + 1)).take j)

/-- Build a trace record the way the unit tests of `span.rs` do. -/
def mkTrace (name : String) (pid cpu seconds : Nat) (marker : TraceMarker) :
    Trace :=
  { name := name, pid := pid, cpu := cpu,
    timestamp := { seconds := seconds, micro := 0 },
    trace_marker := marker, number := "1", shorthand := "f",
    function := name }

/-- `k` fully nested `StartSync`/`EndSync` pairs of an unrelated function,
all on one (pid, cpu): `k` opening records followed by `k` closing ones. -/
def nestedPairs (pid cpu k : Nat) : List Trace :=
  List.replicate k (mkTrace "g" pid cpu 0 .StartSync) ++
    List.replicate k (mkTrace "g" pid cpu 0 .EndSync)

/-- A two-record trace: one `"Foo"` start and its matching end. -/
def exTwo : List Trace :=
  [mkTrace "Foo" 1 1 1 .StartSync, mkTrace "" 1 1 2 .EndSync]

/-- A trace whose single `"Foo"` start record has no matching end. -/
def exNoEnd : List Trace := [mkTrace "Foo" 1 1 1 .StartSync]

/-- A trace that never starts `"Foo"`. -/
def exBar : List Trace := [mkTrace "Bar" 1 1 1 .StartSync]

/-- The exact-match example: a `"Foo"` start, a nested `"Foo2"` start, and
the two matching ends, all on one (pid, cpu). -/
def exFour : List Trace :=
  [mkTrace "Foo" 1 1 1 .StartSync, mkTrace "Foo2" 1 1 2 .StartSync,
   mkTrace "" 1 1 3 .EndSync, mkTrace "" 1 1 4 .EndSync]

/-- Two `"Foo"` start records on different pids whose ends interleave:
the matched index intervals are [0, 2] and [1, 3]. -/
def exCross : List Trace :=
  [mkTrace "Foo" 1 1 1 .StartSync, mkTrace "Foo" 2 1 2 .StartSync,
   mkTrace "" 1 1 3 .EndSync, mkTrace "" 2 1 4 .EndSync]

/-- Two `"Foo"` start records on one (pid, cpu), properly nested:
the matched index intervals are [0, 3] and [1, 2]. -/
def exNested : List Trace :=
  [mkTrace "Foo" 1 1 1 .StartSync, mkTrace "Foo" 1 1 2 .StartSync,
   mkTrace "" 1 1 3 .EndSync, mkTrace "" 1 1 4 .EndSync]

/-! ## Internal lemmas -/

theorem queue_modify_not_scoped (t start : Trace) (q : Int)
    (h : ¬(t.pid = start.pid ∧ t.cpu = start.cpu)) :
    queue_modify t start q = q := by
  simp [queue_modify, h]

theorem queue_modify_congr (t s1 s2 : Trace) (q : Int)
    (hp : s1.pid = s2.pid) (hc : s1.cpu = s2.cpu) :
    queue_modify t s1 q = queue_modify t s2 q := by
  simp [queue_modify, hp, hc]

theorem queue_modify_cases (t start : Trace) (q : Int) :
    queue_modify t start q = q + 1 ∨ queue_modify t start q = q ∨
      queue_modify t start q = q - 1 := by
  by_cases h : t.pid = start.pid ∧ t.cpu = start.cpu
  · cases hm : t.trace_marker <;> simp [queue_modify, h, hm]
  · simp [queue_modify, h]

theorem queue_modify_add (t start : Trace) (q d : Int) :
    queue_modify t start (q + d) = queue_modify t start q + d := by
  by_cases h : t.pid = start.pid ∧ t.cpu = start.cpu
  · cases hm : t.trace_marker <;> simp [queue_modify, h, hm] <;> ring
  · simp [queue_modify, h]

theorem queue_modify_eq_zero (t start : Trace) (q : Int) (hq : 1 ≤ q)
    (h : queue_modify t start q = 0) :
    t.pid = start.pid ∧ t.cpu = start.cpu ∧
      t.trace_marker = TraceMarker.EndSync ∧ q = 1 := by
  by_cases hc : t.pid = start.pid ∧ t.cpu = start.cpu
  · cases hm : t.trace_marker <;> simp [queue_modify, hc, hm] at h <;>
      first
        | (exfalso; omega)
        | exact ⟨hc.1, hc.2, rfl, by omega⟩
  · rw [queue_modify_not_scoped t start q hc] at h
    omega

theorem queue_modify_nonpart (t start : Trace) (q : Int)
    (h : t.trace_marker = TraceMarker.StartAsync ∨
      t.trace_marker = TraceMarker.EndAsync ∨
      t.trace_marker = TraceMarker.Dot) :
    queue_modify t start q = q := by
  by_cases hc : t.pid = start.pid ∧ t.cpu = start.cpu
  · rcases h with h | h | h <;> simp [queue_modify, hc, h]
  · simp [queue_modify, hc]

@[simp] theorem runCounter_nil (start : Trace) (q : Int) :
    runCounter start q [] = q := rfl

@[simp] theorem runCounter_cons (start t : Trace) (q : Int) (l : List Trace) :
    runCounter start q (t :: l) =
      runCounter start (queue_modify t start q) l := rfl

theorem runCounter_append (start : Trace) (q : Int) (a b : List Trace) :
    runCounter start q (a ++ b) = runCounter start (runCounter start q a) b := by
  simp [runCounter, List.foldl_append]

theorem runCounter_add (start : Trace) (l : List Trace) :
    ∀ (q d : Int), runCounter start (q + d) l = runCounter start q l + d := by
  induction l with
  | nil => intro q d; simp
  | cons t ts ih =>
      intro q d
      rw [runCounter_cons, runCounter_cons, queue_modify_add]
      exact ih _ d

theorem runCounter_congr (s1 s2 : Trace) (l : List Trace)
    (hp : s1.pid = s2.pid) (hc : s1.cpu = s2.cpu) :
    ∀ q : Int, runCounter s1 q l = runCounter s2 q l := by
  induction l with
  | nil => intro q; simp
  | cons t ts ih =>
      intro q
      rw [runCounter_cons, runCounter_cons, queue_modify_congr t s1 s2 q hp hc]
      exact ih _

theorem find_end_go_eq_some_iff (start : Trace) :
    ∀ (l : List Trace) (q : Int) (pos p : Nat), q ≠ 0 →
      (find_end_go start q pos l = some p ↔
        ∃ k, k < l.length ∧ p = pos + k ∧
          runCounter start q (l.take (k + 1)) = 0 ∧
          ∀ j, j ≤ k → runCounter start q (l.take j) ≠ 0) := by
  intro l
  induction l with
  | nil =>
      intro q pos p hq
      simp [find_end_go]
  | cons t ts ih =>
      intro q pos p hq
      simp only [find_end_go]
      by_cases h0 : queue_modify t start q = 0
      · rw [if_pos h0]
        constructor
        · intro h
          have hp : p = pos := by
            have := Option.some.inj h
            omega
          refine ⟨0, by simp, by omega, by simpa using h0, ?_⟩
          intro j hj
          have : j = 0 := Nat.le_zero.mp hj
          subst this
          simpa using hq
        · rintro ⟨k, hk, hp, hz, hnz⟩
          have hk0 : k = 0 := by
            by_contra hne
            have h1 : 1 ≤ k := by omega
            exact hnz 1 h1 (by simpa using h0)
          subst hk0
          simp [hp]
      · rw [if_neg h0]
        rw [ih (queue_modify t start q) (pos + 1) p h0]
        constructor
        · rintro ⟨k, hk, hp, hz, hnz⟩
          refine ⟨k + 1, by simpa using Nat.succ_lt_succ hk, by omega,
            by simpa using hz, ?_⟩
          intro j hj
          cases j with
          | zero => simpa using hq
          | succ j' =>
              have := hnz j' (by omega)
              simpa using this
        · rintro ⟨k, hk, hp, hz, hnz⟩
          cases k with
          | zero =>
              exfalso
              exact h0 (by simpa using hz)
          | succ k' =>
              refine ⟨k', by simpa using hk, by omega, by simpa using hz, ?_⟩
              intro j hj
              have := hnz (j + 1) (by omega)
              simpa using this

theorem find_end_go_eq_none_iff (start : Trace) :
    ∀ (l : List Trace) (q : Int) (pos : Nat), q ≠ 0 →
      (find_end_go start q pos l = none ↔
        ∀ j, j ≤ l.length → runCounter start q (l.take j) ≠ 0) := by
  intro l
  induction l with
  | nil =>
      intro q pos hq
      constructor
      · intro _ j hj
        have : j = 0 := Nat.le_zero.mp hj
        subst this
        simpa using hq
      · intro _
        simp [find_end_go]
  | cons t ts ih =>
      intro q pos hq
      simp only [find_end_go]
      by_cases h0 : queue_modify t start q = 0
      · rw [if_pos h0]
        constructor
        · intro h; exact absurd h (by simp)
        · intro h
          exact absurd (by simpa using h0) (h 1 (by simp))
      · rw [if_neg h0]
        rw [ih (queue_modify t start q) (pos + 1) h0]
        constructor
        · intro h j hj
          cases j with
          | zero => simpa using hq
          | succ j' =>
              have := h j' (by simpa using hj)
              simpa using this
        · intro h j hj
          have := h (j + 1) (by simpa using hj)
          simpa using this

theorem runCounter_pos (start : Trace) :
    ∀ (l : List Trace) (q : Int) (k : Nat), 1 ≤ q →
      (∀ j, j ≤ k → runCounter start q (l.take j) ≠ 0) →
      ∀ j, j ≤ k → 1 ≤ runCounter start q (l.take j) := by
  intro l
  induction l with
  | nil =>
      intro q k hq _ j _
      simpa using hq
  | cons t ts ih =>
      intro q k hq hnz j hj
      cases j with
      | zero => simpa using hq
      | succ j' =>
          have hk1 : 1 ≤ k := by omega
          have hq0 : queue_modify t start q ≠ 0 := by
            have := hnz 1 hk1
            simpa using this
          have hq1 : 1 ≤ queue_modify t start q := by
            rcases queue_modify_cases t start q with h | h | h <;> omega
          have hnz' : ∀ j2, j2 ≤ k - 1 →
              runCounter start (queue_modify t start q) (ts.take j2) ≠ 0 := by
            intro j2 hj2
            have := hnz (j2 + 1) (by omega)
            simpa using this
          have := ih (queue_modify t start q) (k - 1) hq1 hnz' j' (by omega)
          simpa using this

theorem runCounter_take_succ (start : Trace) (l : List Trace) (q : Int)
    (k : Nat) (t : Trace) (h : l[k]? = some t) :
    runCounter start q (l.take (k + 1)) =
      queue_modify t start (runCounter start q (l.take k)) := by
  rw [List.take_succ, h]
  simp [runCounter_append]

theorem getElem?_lt_length {α : Type} (l : List α) (i : Nat) (a : α)
    (h : l[i]? = some a) : i < l.length := by
  by_contra hle
  rw [List.getElem?_eq_none (by omega)] at h
  exact Option.noConfusion h

theorem find_end_eq_some_some_iff (traces : List Trace) (start_pos : Nat)
    (start : Trace) (h : traces[start_pos]? = some start) (p : Nat) :
    find_end start_pos traces = some (some p) ↔
      (start_pos < p ∧ p < traces.length ∧
        scanCounter start traces start_pos (p - start_pos) = 0 ∧
        ∀ j, 0 < j → j < p - start_pos →
          scanCounter start traces start_pos j ≠ 0) := by
  have hsp : start_pos < traces.length := getElem?_lt_length _ _ _ h
  have hlen : (traces.drop (start_pos + 1)).length =
      traces.length - (start_pos + 1) := List.length_drop _ _
  unfold find_end
  rw [h]
  simp only [Option.some.injEq]
  rw [find_end_go_eq_some_iff start _ 1 (start_pos + 1) p one_ne_zero]
  constructor
  · rintro ⟨k, hk, hp, hz, hnz⟩
    rw [hlen] at hk
    refine ⟨by omega, by omega, ?_, ?_⟩
    · have hks : p - start_pos = k + 1 := by omega
      rw [hks]
      exact hz
    · intro j hj0 hjp
      have := hnz j (by omega)
      exact this
  · rintro ⟨h1, h2, hz, hnz⟩
    refine ⟨p - start_pos - 1, by omega, by omega, ?_, ?_⟩
    · have hks : p - start_pos - 1 + 1 = p - start_pos := by omega
      rw [hks]
      exact hz
    · intro j hj
      cases j with
      | zero => simp
      | succ j' => exact hnz (j' + 1) (by omega) (by omega)

theorem find_end_eq_some_none_iff (traces : List Trace) (start_pos : Nat)
    (start : Trace) (h : traces[start_pos]? = some start) :
    find_end start_pos traces = some none ↔
      ∀ j, 0 < j → start_pos + j < traces.length →
        scanCounter start traces start_pos j ≠ 0 := by
  have hsp : start_pos < traces.length := getElem?_lt_length _ _ _ h
  have hlen : (traces.drop (start_pos + 1)).length =
      traces.length - (start_pos + 1) := List.length_drop _ _
  unfold find_end
  rw [h]
  simp only [Option.some.injEq]
  rw [find_end_go_eq_none_iff start _ 1 (start_pos + 1) one_ne_zero]
  constructor
  · intro hall j hj0 hjl
    exact hall j (by omega)
  · intro hall j hjl
    rw [hlen] at hjl
    cases j with
    | zero => simp
    | succ j' => exact hall (j' + 1) (by omega) (by omega)

theorem find_end_counter_pos (traces : List Trace) (s p : Nat) (start : Trace)
    (h : traces[s]? = some start)
    (he : find_end s traces = some (some p)) :
    ∀ j, j < p - s → 1 ≤ scanCounter start traces s j := by
  obtain ⟨h1, h2, hz, hnz⟩ := (find_end_eq_some_some_iff traces s start h p).mp he
  have hnz' : ∀ j, j ≤ p - s - 1 →
      runCounter start 1 ((traces.drop (s + 1)).take j) ≠ 0 := by
    intro j hj
    cases j with
    | zero => simp
    | succ j' => exact hnz (j' + 1) (by omega) (by omega)
  intro j hj
  exact runCounter_pos start (traces.drop (s + 1)) 1 (p - s - 1) le_rfl hnz'
    j (by omega)

theorem scanCounter_succ (start : Trace) (traces : List Trace) (s j : Nat)
    (t : Trace) (h : traces[s + 1 + j]? = some t) :
    scanCounter start traces s (j + 1) =
      queue_modify t start (scanCounter start traces s j) := by
  unfold scanCounter
  refine runCounter_take_succ start _ 1 j t ?_
  rw [List.getElem?_drop]
  exact h

theorem scanCounter_split (r1 r2 : Trace) (traces : List Trace) (s1 s2 p : Nat)
    (hp : r1.pid = r2.pid) (hc : r1.cpu = r2.cpu)
    (h12 : s1 < s2) (h2p : s2 ≤ p) :
    scanCounter r1 traces s1 (p - s1) =
      scanCounter r1 traces s1 (s2 - s1) +
        scanCounter r2 traces s2 (p - s2) - 1 := by
  have hsplit : (traces.drop (s1 + 1)).take (p - s1) =
      (traces.drop (s1 + 1)).take (s2 - s1) ++
        (traces.drop (s2 + 1)).take (p - s2) := by
    have hadd : p - s1 = (s2 - s1) + (p - s2) := by omega
    have hidx : s1 + 1 + (s2 - s1) = s2 + 1 := by omega
    rw [hadd, List.take_add, List.drop_drop, hidx]
  unfold scanCounter
  rw [hsplit, runCounter_append]
  rw [runCounter_congr r1 r2 _ hp hc]
  have hone : runCounter r1 1 ((traces.drop (s1 + 1)).take (s2 - s1)) =
      1 + (runCounter r1 1 ((traces.drop (s1 + 1)).take (s2 - s1)) - 1) := by
    ring
  rw [hone, runCounter_add]
  ring

theorem find_end_some_endsync (traces : List Trace) (s p : Nat) (start : Trace)
    (h : traces[s]? = some start)
    (he : find_end s traces = some (some p)) :
    s < p ∧ ∃ t, traces[p]? = some t ∧
      t.trace_marker = TraceMarker.EndSync ∧
      t.pid = start.pid ∧ t.cpu = start.cpu := by
  obtain ⟨h1, h2, hz, hnz⟩ := (find_end_eq_some_some_iff traces s start h p).mp he
  have hget : traces[p]? = some traces[p] := List.getElem?_eq_getElem h2
  set t := traces[p] with ht
  have hps : s + 1 + (p - s - 1) = p := by omega
  have hstep := scanCounter_succ start traces s (p - s - 1) t (by rw [hps]; exact hget)
  have hsucc : p - s - 1 + 1 = p - s := by omega
  rw [hsucc] at hstep
  have hpos : 1 ≤ scanCounter start traces s (p - s - 1) :=
    find_end_counter_pos traces s p start h he (p - s - 1) (by omega)
  obtain ⟨hpid, hcpu, hmark, _⟩ :=
    queue_modify_eq_zero t start (scanCounter start traces s (p - s - 1)) hpos
      (by rw [← hstep]; exact hz)
  exact ⟨h1, t, hget, hmark, hpid, hcpu⟩

theorem span_of_start_eq_some (traces : List Trace) (i : Nat) (u : Trace)
    (s : Span) (h : span_of_start traces i u = some s) :
    s.start = u ∧ ∃ ep e, find_end i traces = some (some ep) ∧
      traces[ep]? = some e ∧ s.end_ = e := by
  cases hfe : find_end i traces with
  | none => simp [span_of_start, hfe] at h
  | some r =>
      cases r with
      | none => simp [span_of_start, hfe] at h
      | some ep =>
          cases hge : traces[ep]? with
          | none => simp [span_of_start, hfe, hge] at h
          | some e =>
              simp only [span_of_start, hfe, hge, Option.some.injEq] at h
              rw [← h]
              exact ⟨rfl, ep, e, rfl, hge, rfl⟩

theorem drop_cons_head (traces ts' : List Trace) (u : Trace) (i : Nat)
    (hdrop : u :: ts' = traces.drop i) :
    traces[i]? = some u ∧ ts' = traces.drop (i + 1) := by
  constructor
  · have h0 : (traces.drop i)[0]? = some u := by rw [← hdrop]; simp
    rw [List.getElem?_drop] at h0
    simpa using h0
  · rw [show traces.drop (i + 1) = (traces.drop i).drop 1 from
      (List.drop_drop 1 i traces).symm]
    rw [← hdrop]
    simp

theorem find_all_spans_go_none_of_bad (fn : String) (traces : List Trace) :
    ∀ (ts : List Trace) (i k : Nat) (t : Trace),
      ts = traces.drop i → i ≤ k → traces[k]? = some t → t.function = fn →
      find_end k traces = some none →
      find_all_spans_go fn traces i ts = none := by
  intro ts
  induction ts with
  | nil =>
      intro i k t hdrop hik hk hfn hend
      exfalso
      have hlen : traces.length - i = 0 := by
        have := congrArg List.length hdrop
        simpa [List.length_drop] using this.symm
      have hklt := getElem?_lt_length _ _ _ hk
      omega
  | cons u ts' ih =>
      intro i k t hdrop hik hk hfn hend
      obtain ⟨hu, hts'⟩ := drop_cons_head traces ts' u i hdrop
      simp only [find_all_spans_go]
      by_cases hcase : i = k
      · subst hcase
        have hut : u = t := Option.some.inj (hu.symm.trans hk)
        rw [if_pos (by rw [hut]; exact hfn)]
        simp [span_of_start, hend]
      · have hik' : i + 1 ≤ k := by omega
        by_cases hf : u.function = fn
        · rw [if_pos hf]
          cases hso : span_of_start traces i u with
          | none => rfl
          | some s =>
              rw [ih (i + 1) k t hts' hik' hk hfn hend]
              rfl
        · rw [if_neg hf]
          exact ih (i + 1) k t hts' hik' hk hfn hend

theorem find_all_spans_go_starts (fn : String) (traces : List Trace) :
    ∀ (ts : List Trace) (i : Nat) (spans : List Span),
      find_all_spans_go fn traces i ts = some spans →
      spans.map Span.start = ts.filter (fun t => t.function == fn) := by
  intro ts
  induction ts with
  | nil =>
      intro i spans h
      simp only [find_all_spans_go, Option.some.injEq] at h
      rw [← h]
      rfl
  | cons u ts' ih =>
      intro i spans h
      simp only [find_all_spans_go] at h
      by_cases hf : u.function = fn
      · rw [if_pos hf] at h
        cases hso : span_of_start traces i u with
        | none => rw [hso] at h; exact Option.noConfusion h
        | some s =>
            rw [hso] at h
            cases hgo : find_all_spans_go fn traces (i + 1) ts' with
            | none => rw [hgo] at h; exact Option.noConfusion h
            | some rest =>
                rw [hgo] at h
                simp at h
                have hstart := (span_of_start_eq_some traces i u s hso).1
                have hcond : (u.function == fn) = true := by simp [hf]
                rw [← h, List.map_cons, hstart, List.filter_cons]
                simp only [hcond, if_true]
                exact congrArg (List.cons u) (ih (i + 1) rest hgo)
      · rw [if_neg hf] at h
        have hrest := ih (i + 1) spans h
        rw [hrest, List.filter_cons]
        simp [hf]

theorem find_all_spans_go_nil (fn : String) (traces : List Trace) :
    ∀ (ts : List Trace) (i : Nat), (∀ t ∈ ts, t.function ≠ fn) →
      find_all_spans_go fn traces i ts = some [] := by
  intro ts
  induction ts with
  | nil => intro i _; rfl
  | cons u ts' ih =>
      intro i h
      simp only [find_all_spans_go]
      rw [if_neg (h u (by simp))]
      exact ih (i + 1) (fun t ht => h t (by simp [ht]))

theorem find_all_spans_go_ends (fn : String) (traces : List Trace) :
    ∀ (ts : List Trace) (i : Nat) (spans : List Span),
      ts = traces.drop i →
      find_all_spans_go fn traces i ts = some spans →
      ∀ sp ∈ spans, sp.end_.trace_marker = TraceMarker.EndSync ∧
        sp.end_.pid = sp.start.pid ∧ sp.end_.cpu = sp.start.cpu := by
  intro ts
  induction ts with
  | nil =>
      intro i spans _ h
      simp only [find_all_spans_go, Option.some.injEq] at h
      rw [← h]
      intro sp hsp
      exact absurd hsp (List.not_mem_nil sp)
  | cons u ts' ih =>
      intro i spans hdrop h
      obtain ⟨hu, hts'⟩ := drop_cons_head traces ts' u i hdrop
      simp only [find_all_spans_go] at h
      by_cases hf : u.function = fn
      · rw [if_pos hf] at h
        cases hso : span_of_start traces i u with
        | none => rw [hso] at h; exact Option.noConfusion h
        | some s =>
            rw [hso] at h
            cases hgo : find_all_spans_go fn traces (i + 1) ts' with
            | none => rw [hgo] at h; exact Option.noConfusion h
            | some rest =>
                rw [hgo] at h
                simp at h
                intro sp hsp
                rw [← h] at hsp
                rcases List.mem_cons.mp hsp with hsp | hsp
                · subst hsp
                  obtain ⟨hstart, ep, e, hfe, hge, hend⟩ :=
                    span_of_start_eq_some traces i u sp hso
                  obtain ⟨_, t, hget, hmark, hpid, hcpu⟩ :=
                    find_end_some_endsync traces i ep u hu hfe
                  have hte : t = e := Option.some.inj (hget.symm.trans hge)
                  rw [hend, hstart, ← hte]
                  exact ⟨hmark, hpid, hcpu⟩
                · exact ih (i + 1) rest hts' hgo sp hsp
      · rw [if_neg hf] at h
        exact ih (i + 1) spans hts' h

theorem find_end_go_skips_nonpart (start : Trace) :
    ∀ (l : List Trace) (q : Int) (pos : Nat) (rest : List Trace),
      q ≠ 0 →
      (∀ t ∈ l, t.trace_marker = TraceMarker.StartAsync ∨
        t.trace_marker = TraceMarker.EndAsync ∨
        t.trace_marker = TraceMarker.Dot) →
      find_end_go start q pos (l ++ rest) =
        find_end_go start q (pos + l.length) rest := by
  intro l
  induction l with
  | nil => intro q pos rest _ _; simp
  | cons t ts ih =>
      intro q pos rest hq hmk
      have hqm : queue_modify t start q = q :=
        queue_modify_nonpart t start q (hmk t (by simp))
      simp only [List.cons_append, find_end_go, hqm]
      rw [if_neg hq]
      have harith : pos + 1 + ts.length = pos + (t :: ts).length := by
        simp [List.length_cons]
        omega
      exact (ih q (pos + 1) rest hq (fun t' ht' => hmk t' (by simp [ht']))).trans
        (by rw [harith])

theorem find_end_go_replicate_start (start sRec : Trace)
    (hpid : sRec.pid = start.pid) (hcpu : sRec.cpu = start.cpu)
    (hmk : sRec.trace_marker = TraceMarker.StartSync) :
    ∀ (k : Nat) (q : Int) (pos : Nat) (rest : List Trace), 1 ≤ q →
      find_end_go start q pos (List.replicate k sRec ++ rest) =
        find_end_go start (q + k) (pos + k) rest := by
  intro k
  induction k with
  | zero => intro q pos rest _; simp
  | succ k' ih =>
      intro q pos rest hq
      have hqm : queue_modify sRec start q = q + 1 := by
        simp [queue_modify, hpid, hcpu, hmk]
      rw [List.replicate_succ]
      simp only [List.cons_append, find_end_go, hqm]
      rw [if_neg (by omega)]
      have harith1 : q + 1 + (k' : Int) = q + ((k' + 1 : Nat) : Int) := by
        push_cast
        ring
      have harith2 : pos + 1 + k' = pos + (k' + 1) := by omega
      exact (ih (q + 1) (pos + 1) rest (by omega)).trans
        (by rw [harith1, harith2])

theorem find_end_go_replicate_end (start eRec : Trace)
    (hpid : eRec.pid = start.pid) (hcpu : eRec.cpu = start.cpu)
    (hmk : eRec.trace_marker = TraceMarker.EndSync) :
    ∀ (k : Nat) (q : Int) (pos : Nat) (rest : List Trace), 1 ≤ q →
      find_end_go start (q + k) pos (List.replicate k eRec ++ rest) =
        find_end_go start q (pos + k) rest := by
  intro k
  induction k with
  | zero => intro q pos rest _; simp
  | succ k' ih =>
      intro q pos rest hq
      have hqm : queue_modify eRec start (q + (k' + 1 : Nat)) =
          q + (k' : Nat) := by
        simp [queue_modify, hpid, hcpu, hmk]
        ring
      rw [List.replicate_succ]
      simp only [List.cons_append, find_end_go, hqm]
      rw [if_neg (by omega)]
      have harith : pos + 1 + k' = pos + (k' + 1) := by omega
      exact (ih q (pos + 1) rest hq).trans (by rw [harith])

theorem find_end_cons (start : Trace) (l : List Trace) :
    find_end 0 (start :: l) = some (find_end_go start 1 1 l) := by
  simp [find_end]

/-! ## Claim theorems -/

/-- Claim C1: for a trace list and start position holding a record,
`find_end` maintains the nesting counter (`scanCounter`, initialized to 1 and
updated by `queue_modify` while scanning forward from `start_position + 1`) and
returns `some p` exactly for the first scanned position `p` at which the
counter becomes 0, and `none` exactly when the scan exhausts the list without
the counter reaching zero. -/
theorem find_end_counter_spec (traces : List Trace) (start_pos : Nat)
    (start : Trace) (h : traces[start_pos]? = some start) :
    (∀ p, find_end start_pos traces = some (some p) ↔
       (start_pos < p ∧ p < traces.length ∧
        scanCounter start traces start_pos (p - start_pos) = 0 ∧
        ∀ j, 0 < j → j < p - start_pos →
          scanCounter start traces start_pos j ≠ 0)) ∧
    (find_end start_pos traces = some none ↔
       ∀ j, 0 < j → start_pos + j < traces.length →
         scanCounter start traces start_pos j ≠ 0) :=
  ⟨fun p => find_end_eq_some_some_iff traces start_pos start h p,
   find_end_eq_some_none_iff traces start_pos start h⟩

/-- Witness for C1 at the two-record trace `exTwo`. -/
theorem find_end_counter_spec_witness :
    exTwo[0]? = some (mkTrace "Foo" 1 1 1 TraceMarker.StartSync) ∧
    scanCounter (mkTrace "Foo" 1 1 1 TraceMarker.StartSync) exTwo 0 1 = 0 := by
  refine ⟨by decide, ?_⟩
  have h := ((find_end_counter_spec exTwo 0
    (mkTrace "Foo" 1 1 1 TraceMarker.StartSync) (by decide)).1 1).mp (by decide)
  simpa using h.2.2.1

/-- Claim C2: if any record whose function field equals the queried name has no
matching end (`find_end` returns the Rust value `None`, here `some none`), then
`find_all_spans` fails fatally (`none`): it neither returns a partial result
nor drops the unmatched start. -/
theorem find_all_spans_fatal_on_unterminated (fn : String) (traces : List Trace)
    (k : Nat) (t : Trace) (hk : traces[k]? = some t) (hfn : t.function = fn)
    (hend : find_end k traces = some none) :
    find_all_spans fn traces = none :=
  find_all_spans_go_none_of_bad fn traces traces 0 k t (by simp) (Nat.zero_le k)
    hk hfn hend

/-- Witness for C2 at a trace with one unterminated `"Foo"` start. -/
theorem find_all_spans_fatal_on_unterminated_witness :
    find_all_spans "Foo" exNoEnd = none :=
  find_all_spans_fatal_on_unterminated "Foo" exNoEnd 0
    (mkTrace "Foo" 1 1 1 TraceMarker.StartSync) (by decide) rfl (by decide)

/-- Counterexample to C3 as stated: on `exCross` the two `"Foo"` start records
(positions 0 and 1, different pids) both match, giving index intervals [0, 2]
and [1, 3], which are neither sequential nor nested —
the spans partially overlap. -/
theorem find_all_spans_overlap_counterexample :
    find_all_spans "Foo" exCross =
      some [{ start := mkTrace "Foo" 1 1 1 TraceMarker.StartSync,
              end_ := mkTrace "" 1 1 3 TraceMarker.EndSync },
            { start := mkTrace "Foo" 2 1 2 TraceMarker.StartSync,
              end_ := mkTrace "" 2 1 4 TraceMarker.EndSync }] ∧
    (exCross.map Trace.function)[0]? = some "Foo" ∧
    (exCross.map Trace.function)[1]? = some "Foo" ∧
    find_end 0 exCross = some (some 2) ∧
    find_end 1 exCross = some (some 3) ∧
    ¬((2 : Nat) < 1 ∨ (3 : Nat) < 0 ∨
      ((0 : Nat) ≤ 1 ∧ (3 : Nat) ≤ 2) ∨ ((1 : Nat) ≤ 0 ∧ (2 : Nat) ≤ 3)) := by
  exact ⟨by decide, by decide, by decide, by decide, by decide, by decide⟩

/-- Claim C3 (amended): two distinct spans matched for the same function whose
start records share the same pid and cpu and both carry a `StartSync` marker
are never partially overlapping: they are sequential (`e1 < s2`) or properly
nested (`e2 < e1`).  (Without the shared-scope and `StartSync` conditions the
claim fails, see the counterexample.) -/
theorem find_end_sequential_or_nested (traces : List Trace) (s1 s2 e1 e2 : Nat)
    (r1 r2 : Trace)
    (h1 : traces[s1]? = some r1) (h2 : traces[s2]? = some r2)
    (h12 : s1 < s2)
    (hpid : r1.pid = r2.pid) (hcpu : r1.cpu = r2.cpu)
    (_hm1 : r1.trace_marker = TraceMarker.StartSync)
    (hm2 : r2.trace_marker = TraceMarker.StartSync)
    (he1 : find_end s1 traces = some (some e1))
    (he2 : find_end s2 traces = some (some e2)) :
    e1 < s2 ∨ e2 < e1 := by
  by_cases hseq : e1 < s2
  · exact Or.inl hseq
  right
  push_neg at hseq
  obtain ⟨hs1e1, he1len, hz1, hnz1⟩ :=
    (find_end_eq_some_some_iff traces s1 r1 h1 e1).mp he1
  obtain ⟨hs2e2, he2len, hz2, hnz2⟩ :=
    (find_end_eq_some_some_iff traces s2 r2 h2 e2).mp he2
  have hpos1 := find_end_counter_pos traces s1 e1 r1 h1 he1
  have hpos2 := find_end_counter_pos traces s2 e2 r2 h2 he2
  have hstep : scanCounter r1 traces s1 (s2 - s1) =
      queue_modify r2 r1 (scanCounter r1 traces s1 (s2 - s1 - 1)) := by
    have hps : s1 + 1 + (s2 - s1 - 1) = s2 := by omega
    have h' := scanCounter_succ r1 traces s1 (s2 - s1 - 1) r2
      (by rw [hps]; exact h2)
    rw [show s2 - s1 - 1 + 1 = s2 - s1 from by omega] at h'
    exact h'
  have hqm : queue_modify r2 r1 (scanCounter r1 traces s1 (s2 - s1 - 1)) =
      scanCounter r1 traces s1 (s2 - s1 - 1) + 1 := by
    simp [queue_modify, hpid, hcpu, hm2]
  have hb : 1 ≤ scanCounter r1 traces s1 (s2 - s1 - 1) := by
    apply hpos1
    omega
  have hge2 : 2 ≤ scanCounter r1 traces s1 (s2 - s1) := by
    rw [hstep, hqm]
    omega
  have hs2e1 : s2 < e1 := by
    rcases Nat.lt_or_ge s2 e1 with h | h
    · exact h
    · exfalso
      rw [show s2 - s1 = e1 - s1 from by omega] at hge2
      omega
  rcases Nat.lt_or_ge e2 e1 with h | h
  · exact h
  exfalso
  have hsplit := scanCounter_split r1 r2 traces s1 s2 e1 hpid hcpu h12 (by omega)
  rw [hz1] at hsplit
  rcases Nat.lt_or_ge e1 e2 with hlt | hge
  · have := hpos2 (e1 - s2) (by omega)
    omega
  · rw [show e1 - s2 = e2 - s2 from by omega, hz2] at hsplit
    omega

/-- Witness for C3 (amended) at `exNested`: the two same-scope `"Foo"` spans
[0, 3] and [1, 2] are properly nested. -/
theorem find_end_sequential_or_nested_witness :
    (3 : Nat) < 1 ∨ (2 : Nat) < 3 :=
  find_end_sequential_or_nested exNested 0 1 3 2
    (mkTrace "Foo" 1 1 1 TraceMarker.StartSync)
    (mkTrace "Foo" 1 1 2 TraceMarker.StartSync)
    (by decide) (by decide) (by decide) rfl rfl rfl rfl (by decide) (by decide)

/-- Claim C4: when `find_all_spans` succeeds, it returns one span for exactly
those records whose function field equals the queried name — by exact,
case-sensitive string equality — and the spans' start records appear in the
same order as in the trace list. -/
theorem find_all_spans_starts_exact (fn : String) (traces : List Trace)
    (spans : List Span) (h : find_all_spans fn traces = some spans) :
    spans.map Span.start = traces.filter (fun t => t.function == fn) :=
  find_all_spans_go_starts fn traces traces 0 spans h

/-- Witness for C4 at `exFour`: querying `"Foo"` matches the `"Foo"` record
only, never the `"Foo2"` one. -/
theorem find_all_spans_starts_exact_witness :
    ([{ start := mkTrace "Foo" 1 1 1 TraceMarker.StartSync,
        end_ := mkTrace "" 1 1 4 TraceMarker.EndSync }] : List Span).map
        Span.start =
      exFour.filter (fun t => t.function == "Foo") :=
  find_all_spans_starts_exact "Foo" exFour
    [{ start := mkTrace "Foo" 1 1 1 TraceMarker.StartSync,
       end_ := mkTrace "" 1 1 4 TraceMarker.EndSync }] (by decide)

/-- Claim C5: a record whose pid or cpu differs from the start record's leaves
the nesting counter unchanged, whatever its marker kind. -/
theorem queue_modify_ignores_other_scope (t start : Trace) (q : Int)
    (h : t.pid ≠ start.pid ∨ t.cpu ≠ start.cpu) :
    queue_modify t start q = q :=
  queue_modify_not_scoped t start q (by tauto)

/-- Witness for C5: an `EndSync` on pid 2 does not decrement a counter scoped
to pid 1. -/
theorem queue_modify_ignores_other_scope_witness :
    queue_modify (mkTrace "" 2 1 1 TraceMarker.EndSync)
      (mkTrace "Foo" 1 1 1 TraceMarker.StartSync) 1 = 1 :=
  queue_modify_ignores_other_scope _ _ 1 (Or.inl (by decide))

/-- Claim C6: an in-scope record updates the counter by marker kind —
`StartSync` +1, `EndSync` −1, `StartAsync`/`EndAsync`/`Dot` unchanged — and a
span whose interior consists only of such non-participating markers still
resolves to its true `EndSync`. -/
theorem queue_modify_marker_spec :
    (∀ (t start : Trace) (q : Int), t.pid = start.pid → t.cpu = start.cpu →
      (t.trace_marker = TraceMarker.StartSync →
        queue_modify t start q = q + 1) ∧
      (t.trace_marker = TraceMarker.EndSync →
        queue_modify t start q = q - 1) ∧
      (t.trace_marker = TraceMarker.StartAsync ∨
        t.trace_marker = TraceMarker.EndAsync ∨
        t.trace_marker = TraceMarker.Dot → queue_modify t start q = q)) ∧
    (∀ (start e : Trace) (l : List Trace),
      (∀ t ∈ l, t.trace_marker = TraceMarker.StartAsync ∨
        t.trace_marker = TraceMarker.EndAsync ∨
        t.trace_marker = TraceMarker.Dot) →
      e.trace_marker = TraceMarker.EndSync → e.pid = start.pid →
      e.cpu = start.cpu →
      find_end 0 (start :: (l ++ [e])) = some (some (l.length + 1))) := by
  constructor
  · intro t start q hp hc
    exact ⟨fun hm => by simp [queue_modify, hp, hc, hm],
           fun hm => by simp [queue_modify, hp, hc, hm],
           fun hm => queue_modify_nonpart t start q hm⟩
  · intro start e l hl hme hpe hce
    rw [find_end_cons]
    rw [find_end_go_skips_nonpart start l 1 1 [e] one_ne_zero hl]
    have hqm : queue_modify e start 1 = 0 := by
      simp [queue_modify, hpe, hce, hme]
    simp [find_end_go, hqm, Nat.add_comm]

/-- Witness for C6 at concrete records on pid 1, cpu 1. -/
theorem queue_modify_marker_spec_witness :
    queue_modify (mkTrace "a" 1 1 1 TraceMarker.StartSync)
      (mkTrace "Foo" 1 1 1 TraceMarker.StartSync) 5 = 5 + 1 ∧
    queue_modify (mkTrace "b" 1 1 1 TraceMarker.EndSync)
      (mkTrace "Foo" 1 1 1 TraceMarker.StartSync) 5 = 5 - 1 ∧
    queue_modify (mkTrace "c" 1 1 1 TraceMarker.Dot)
      (mkTrace "Foo" 1 1 1 TraceMarker.StartSync) 5 = 5 ∧
    find_end 0 (mkTrace "Foo" 1 1 1 TraceMarker.StartSync ::
      ([mkTrace "c" 1 1 2 TraceMarker.Dot,
        mkTrace "d" 1 1 3 TraceMarker.StartAsync] ++
        [mkTrace "" 1 1 4 TraceMarker.EndSync])) = some (some 3) := by
  refine ⟨(queue_modify_marker_spec.1 _ _ 5 rfl rfl).1 rfl,
          (queue_modify_marker_spec.1 _ _ 5 rfl rfl).2.1 rfl,
          (queue_modify_marker_spec.1 _ _ 5 rfl rfl).2.2 (Or.inr (Or.inr rfl)),
          ?_⟩
  have h := queue_modify_marker_spec.2 (mkTrace "Foo" 1 1 1 TraceMarker.StartSync)
    (mkTrace "" 1 1 4 TraceMarker.EndSync)
    [mkTrace "c" 1 1 2 TraceMarker.Dot, mkTrace "d" 1 1 3 TraceMarker.StartAsync]
    (by decide) rfl rfl rfl
  simpa using h

/-- Claim C7: on one start record followed by `k` fully nested
`StartSync`/`EndSync` pairs of an unrelated function and a final `EndSync`,
all sharing one (pid, cpu), `find_end` at the start returns the index
`2k + 1` of that final `EndSync`, for every `k`. -/
theorem find_end_nested_pairs (k pid cpu : Nat) :
    find_end 0 (mkTrace "Foo" pid cpu 0 TraceMarker.StartSync ::
      (nestedPairs pid cpu k ++ [mkTrace "" pid cpu 0 TraceMarker.EndSync])) =
      some (some (2 * k + 1)) := by
  rw [find_end_cons]
  unfold nestedPairs
  rw [List.append_assoc]
  rw [find_end_go_replicate_start (mkTrace "Foo" pid cpu 0 TraceMarker.StartSync)
    (mkTrace "g" pid cpu 0 TraceMarker.StartSync) rfl rfl rfl k 1 1 _ le_rfl]
  rw [find_end_go_replicate_end (mkTrace "Foo" pid cpu 0 TraceMarker.StartSync)
    (mkTrace "g" pid cpu 0 TraceMarker.EndSync) rfl rfl rfl k 1 (1 + k) _ le_rfl]
  have hqm : queue_modify (mkTrace "" pid cpu 0 TraceMarker.EndSync)
      (mkTrace "Foo" pid cpu 0 TraceMarker.StartSync) 1 = 0 := by
    simp [queue_modify, mkTrace]
  have harith : 1 + k + k = 2 * k + 1 := by omega
  simp [find_end_go, hqm, harith]

/-- Claim C8: `find_end` hits its fatal `unwrap` panic (modelled `none`)
exactly when the start position is out of range; when the start record exists
the panic branch is unreachable and `find_end` runs to completion. -/
theorem find_end_panic_iff (start_pos : Nat) (traces : List Trace) :
    find_end start_pos traces = none ↔ traces.length ≤ start_pos := by
  cases h : traces[start_pos]? with
  | none =>
      have hn : find_end start_pos traces = none := by simp [find_end, h]
      have hlen : traces.length ≤ start_pos := by
        by_contra hlt
        push_neg at hlt
        rw [List.getElem?_eq_getElem hlt] at h
        exact Option.noConfusion h
      exact iff_of_true hn hlen
  | some v =>
      have hlt := getElem?_lt_length _ _ _ h
      have hn : find_end start_pos traces ≠ none := by simp [find_end, h]
      exact iff_of_false hn (by omega)

/-- Claim C9: when no record's function field equals the queried name,
`find_all_spans` returns the empty list and does not fail. -/
theorem find_all_spans_no_match (fn : String) (traces : List Trace)
    (h : ∀ t ∈ traces, t.function ≠ fn) :
    find_all_spans fn traces = some [] :=
  find_all_spans_go_nil fn traces traces 0 h

/-- Witness for C9: querying `"Foo"` on a trace that only starts `"Bar"`. -/
theorem find_all_spans_no_match_witness :
    find_all_spans "Foo" exBar = some [] :=
  find_all_spans_no_match "Foo" exBar (by decide)

/-- Claim C10: whenever `find_end` returns `some p`, `p` is strictly after the
start position and holds an `EndSync` record with the start record's pid and
cpu; consequently every span produced by `find_all_spans` ends at such a
correctly scoped `EndSync`. -/
theorem find_end_end_is_scoped_endsync (traces : List Trace) :
    (∀ (s p : Nat) (start : Trace), traces[s]? = some start →
      find_end s traces = some (some p) →
      s < p ∧ ∃ t, traces[p]? = some t ∧
        t.trace_marker = TraceMarker.EndSync ∧
        t.pid = start.pid ∧ t.cpu = start.cpu) ∧
    (∀ (fn : String) (spans : List Span),
      find_all_spans fn traces = some spans →
      ∀ sp ∈ spans, sp.end_.trace_marker = TraceMarker.EndSync ∧
        sp.end_.pid = sp.start.pid ∧ sp.end_.cpu = sp.start.cpu) := by
  constructor
  · intro s p start h he
    exact find_end_some_endsync traces s p start h he
  · intro fn spans h
    exact find_all_spans_go_ends fn traces traces 0 spans (by simp) h

/-- Witness for C10 at `exTwo`. -/
theorem find_end_end_is_scoped_endsync_witness :
    (0 : Nat) < 1 ∧ ∃ t, exTwo[1]? = some t ∧
      t.trace_marker = TraceMarker.EndSync ∧
      t.pid = (mkTrace "Foo" 1 1 1 TraceMarker.StartSync).pid ∧
      t.cpu = (mkTrace "Foo" 1 1 1 TraceMarker.StartSync).cpu :=
  (find_end_end_is_scoped_endsync exTwo).1 0 1
    (mkTrace "Foo" 1 1 1 TraceMarker.StartSync) (by decide) (by decide)

end HitraceBench
